import Mathlib

/-!
Verification of the resumable batch-fetch orchestration engine
(steamids-parser).  Shallow embedding of the status store, the
time-series tables, the batch planner, the token-bucket rate limiter,
the SteamCharts CCU fetcher and the hybrid two-stage ITAD price
fetcher, together with theorems settling the frozen claims.
-/

/-- One row of the `app_status` table (schema from `database.py`,
`init_database`).  `app_id` is kept as the key of the table, not as a
field.  Column defaults: the counters default to 0, the text columns to
NULL (`none`). -/
structure AppRow where
  status : String
  ccu_processed : Int
  price_processed : Int
  ccu_error : Option String
  price_error : Option String
  last_updated : String
  ccu_url : Option String
  price_url : Option String
  itad_currencies_checked : Option String
  itad_price_processed : Int
  itad_error : Option String
deriving DecidableEq

/-- The keyword arguments accepted by `Database.update_app_status`
(the allowed-column filter in `database.py`).  `none` means the key was
not passed; `some v` means the key was passed with value `v` (for the
text columns `v` itself is an `Option String`, since Python callers may
pass `None` explicitly). -/
structure UpdateKw where
  ccu_processed : Option Int := none
  price_processed : Option Int := none
  ccu_error : Option (Option String) := none
  price_error : Option (Option String) := none
  ccu_url : Option (Option String) := none
  price_url : Option (Option String) := none
  itad_currencies_checked : Option (Option String) := none
  itad_price_processed : Option Int := none
  itad_error : Option (Option String) := none
deriving DecidableEq

/-- `Database.update_app_status` on the SQLite backend: the
`INSERT OR REPLACE` builds a whole fresh row from `app_id`, `status`,
`last_updated` and the passed kwargs; every unpassed column takes its
schema default.  The previous row is not consulted at all. -/
def updateAppStatusSqlite (status : String) (now : String) (kw : UpdateKw) : AppRow :=
  { status := status
    ccu_processed := kw.ccu_processed.getD 0
    price_processed := kw.price_processed.getD 0
    ccu_error := kw.ccu_error.getD none
    price_error := kw.price_error.getD none
    last_updated := now
    ccu_url := kw.ccu_url.getD none
    price_url := kw.price_url.getD none
    itad_currencies_checked := kw.itad_currencies_checked.getD none
    itad_price_processed := kw.itad_price_processed.getD 0
    itad_error := kw.itad_error.getD none }

/-- The `app_status` table: association list keyed by `app_id`. -/
abbrev AppTable : Type := List (Int × AppRow)

/-- `Database.get_app_status`: the row for `app_id`, if any. -/
def getApp (t : AppTable) (id : Int) : Option AppRow :=
  (List.find? (fun p => decide (p.1 = id)) t).map Prod.snd

/-- Table-level `Database.update_app_status` on SQLite:
`INSERT OR REPLACE` removes any existing row for `app_id` and inserts
the freshly built one. -/
def dbUpdateAppStatus (t : AppTable) (id : Int) (status now : String) (kw : UpdateKw) : AppTable :=
  (List.filter (fun p => decide (p.1 ≠ id)) t) ++ [(id, updateAppStatusSqlite status now kw)]

/-- `CheckpointManager.mark_ccu_done`: status `ccu_done` when
`ccu_count > 0`, else `ccu_error`; writes `ccu_processed`. -/
def markCcuDone (ccu_count : Int) (now : String) : AppRow :=
  updateAppStatusSqlite (if ccu_count > 0 then "ccu_done" else "ccu_error") now
    { ccu_processed := some ccu_count }

/-- `CheckpointManager.mark_price_done`: reads the current row, then
chooses the status from `price_count` and the stored `ccu_processed` /
current status, and writes `price_processed`. -/
def markPriceDone (current : Option AppRow) (price_count : Int) (now : String) : AppRow :=
  let ccu_count : Int := match current with | some r => r.ccu_processed | none => 0
  let status :=
    if price_count > 0 then
      if ccu_count > 0 then "completed" else "price_done"
    else
      if (match current with | some r => decide (r.status = "ccu_done") | none => false) then
        "ccu_error"
      else "price_error"
  updateAppStatusSqlite status now { price_processed := some price_count }

/-- `CheckpointManager.mark_app_error`: branches on `error_type`; for a
price error the status is `both_error` only when the current status is
`ccu_error`, else `price_error`. -/
def markAppError (current : Option AppRow) (error_type error_message : String)
    (url : Option String) (now : String) : AppRow :=
  if error_type = "ccu" then
    updateAppStatusSqlite "ccu_error" now
      { ccu_error := some (some error_message), ccu_url := some url }
  else if error_type = "price" then
    let status :=
      if (match current with | some r => decide (r.status = "ccu_error") | none => false) then
        "both_error"
      else "price_error"
    updateAppStatusSqlite status now
      { price_error := some (some error_message), price_url := some url }
  else
    updateAppStatusSqlite "both_error" now
      { ccu_error := some (if error_type = "ccu" then some error_message else none)
        price_error := some (if error_type = "price" then some error_message else none)
        ccu_url := some (if error_type = "ccu" then url else none)
        price_url := some (if error_type = "price" then url else none) }

/-- The row inserted by `CheckpointManager.initialize_app_ids` for an
unseen id: `INSERT INTO app_status (app_id, status, last_updated)
VALUES (?, 'pending', ?)`; all other columns take their defaults. -/
def initRow (now : String) : AppRow :=
  { status := "pending"
    ccu_processed := 0
    price_processed := 0
    ccu_error := none
    price_error := none
    last_updated := now
    ccu_url := none
    price_url := none
    itad_currencies_checked := none
    itad_price_processed := 0
    itad_error := none }

/-- `CheckpointManager.initialize_app_ids`: for each loaded id, insert a
`pending` row only when no row for that id exists yet. -/
def initAppIds (t : AppTable) (ids : List Int) (now : String) : AppTable :=
  List.foldl
    (fun acc id => if (getApp acc id).isSome then acc else acc ++ [(id, initRow now)])
    t ids

/-- One row of the `ccu_history` table; uniqueness key
`(app_id, datetime, value_type)`. -/
structure CcuRow where
  app_id : Int
  datetime : String
  players : Int
  value_type : String
deriving DecidableEq

/-- The uniqueness key of a `ccu_history` row. -/
def ccuKey (r : CcuRow) : Int × String × String := (r.app_id, r.datetime, r.value_type)

/-- One row of the `price_history` table; uniqueness key
`(app_id, datetime, currency_symbol)`. -/
structure PriceRow where
  app_id : Int
  datetime : String
  price_final : ℚ
  currency_symbol : String
  currency_name : String
deriving DecidableEq

/-- The uniqueness key of a `price_history` row. -/
def priceKey (r : PriceRow) : Int × String × String := (r.app_id, r.datetime, r.currency_symbol)

/-- Reset performed by `/itad/retry-errors` on one matching row: the
`UPDATE` sets only `status`, `itad_error`, `itad_price_processed` and
`itad_currencies_checked`; all other columns keep their values. -/
def resetItadRow (r : AppRow) : AppRow :=
  { r with
    status := "pending"
    itad_error := none
    itad_price_processed := 0
    itad_currencies_checked := none }

/-- `retry_itad_errors` (api_server.py): counts rows with status
`itad_error`; when none, returns without updating; otherwise runs the
`UPDATE ... WHERE status = 'itad_error'`.  The time-series tables are
not touched by the endpoint. -/
def retryItadErrors (t : AppTable) (ccu : List CcuRow) (price : List PriceRow) :
    AppTable × List CcuRow × List PriceRow :=
  let error_count := (List.filter (fun p => decide (p.2.status = "itad_error")) t).length
  if error_count = 0 then (t, ccu, price)
  else
    (List.map (fun p => if p.2.status = "itad_error" then (p.1, resetItadRow p.2) else p) t,
     ccu, price)

/-- `config.DB_BATCH_SIZE`: records are inserted in chunks of 1000. -/
def dbBatchSize : Nat := 1000

/-- Helper for `toBatches`: structural chunking with an accumulator for
the current partial chunk. -/
def toBatchesAux {α : Type} (n : Nat) : List α → List α → List (List α)
  | [], acc => if acc.isEmpty then [] else [acc]
  | x :: xs, acc =>
    if acc.length + 1 = n then (acc ++ [x]) :: toBatchesAux n xs []
    else toBatchesAux n xs (acc ++ [x])

/-- Partition a list into consecutive chunks of size `n` (the last one
may be shorter) — the `range(0, len, n)` slicing loop used both by
`_create_batches` and by the `DB_BATCH_SIZE` insert loops. -/
def toBatches {α : Type} (n : Nat) (l : List α) : List (List α) :=
  toBatchesAux n l []

/-- Whether some row of `t` has key `k`. -/
def hasKey {α κ : Type} [DecidableEq κ] (key : α → κ) (t : List α) (k : κ) : Bool :=
  List.any t fun x => decide (key x = k)

/-- The first row of `t` with key `k`, if any. -/
def findByKey {α κ : Type} [DecidableEq κ] (key : α → κ) (t : List α) (k : κ) : Option α :=
  List.find? (fun x => decide (key x = k)) t

/-- The number of rows of `t` with key `k`. -/
def countByKey {α κ : Type} [DecidableEq κ] (key : α → κ) (t : List α) (k : κ) : Nat :=
  List.countP (fun x => decide (key x = k)) t

/-- `INSERT OR IGNORE` / `ON CONFLICT DO NOTHING` against a UNIQUE key:
the row is appended only when no row with the same key exists. -/
def insertIgnoreKeyed {α κ : Type} [DecidableEq κ] (key : α → κ) (t : List α) (r : α) : List α :=
  if hasKey key t (key r) then t else t ++ [r]

/-- `Database.save_ccu_data`: no-op on an empty list, else builds the
value tuples for one `app_id` and one `value_type` and inserts them by
`DB_BATCH_SIZE` chunks with `INSERT OR IGNORE`. -/
def saveCcuData (t : List CcuRow) (app_id : Int) (data_list : List (String × Int))
    (value_type : String) : List CcuRow :=
  if data_list.isEmpty then t
  else
    let values := data_list.map fun item => CcuRow.mk app_id item.1 item.2 value_type
    List.foldl (fun acc b => List.foldl (insertIgnoreKeyed ccuKey) acc b) t
      (toBatches dbBatchSize values)

/-- `Database.save_price_data`: the price-table analogue of
`saveCcuData`; each item carries `(datetime, price_final,
currency_symbol, currency_name)`. -/
def savePriceData (t : List PriceRow) (app_id : Int)
    (data_list : List (String × ℚ × String × String)) : List PriceRow :=
  if data_list.isEmpty then t
  else
    let values := data_list.map fun item =>
      PriceRow.mk app_id item.1 item.2.1 item.2.2.1 item.2.2.2
    List.foldl (fun acc b => List.foldl (insertIgnoreKeyed priceKey) acc b) t
      (toBatches dbBatchSize values)

/-- State of `RateLimiter` (steamcharts_parser.py): the configured
rate, the current token count and the time of the last update, as exact
rationals. -/
structure RateLimiter where
  rate : ℚ
  tokens : ℚ
  last_update : ℚ
deriving DecidableEq

/-- `RateLimiter.acquire` at wall-clock time `now`: refills from the
elapsed time since `last_update`, sets `last_update := now`, and either
consumes a token (no wait) or sleeps `(1 - tokens) / rate` and then
sets `tokens := 0`.  Returns the wait incurred and the new state.
`last_update` is NOT advanced past the sleep. -/
def rlAcquire (s : RateLimiter) (now : ℚ) : ℚ × RateLimiter :=
  let tokens := min s.rate (s.tokens + (now - s.last_update) * s.rate)
  if tokens < 1 then
    ((1 - tokens) / s.rate, { rate := s.rate, tokens := 0, last_update := now })
  else
    (0, { rate := s.rate, tokens := tokens - 1, last_update := now })

/-- Total wait incurred by `n` back-to-back sequential `acquire` calls
starting at time `now` (each call starts the instant the previous one
returns; zero scheduling jitter). -/
def rlRun (s : RateLimiter) (now : ℚ) : Nat → ℚ
  | 0 => 0
  | n + 1 =>
    let r := rlAcquire s now
    r.1 + rlRun r.2 (now + r.1) n

/-- State of `BatchManager` (batch_manager.py). -/
structure BatchManager where
  batches : List (List Int)
  processed : List (List Int)
  current_index : Nat
deriving DecidableEq

/-- `BatchManager.__init__` + `_create_batches`. -/
def mkBatchManager (app_ids : List Int) (batch_size : Nat) : BatchManager :=
  { batches := toBatches batch_size app_ids, processed := [], current_index := 0 }

/-- The `while self.current_index < len(self.batches)` scan of
`get_next_batch`, expressed over the remaining suffix of the batch
list. -/
def scanNext (processed : List (List Int)) : List (List Int) → Nat → Option (List Int) × Nat
  | [], i => (none, i)
  | b :: rest, i => if b ∈ processed then scanNext processed rest (i + 1) else (some b, i + 1)

/-- `BatchManager.get_next_batch`: scan forward from `current_index`,
skipping batches whose key is in the processed set; return the first
other batch and advance the cursor, or `None` when the scan reaches the
end. -/
def getNextBatch (s : BatchManager) : Option (List Int) × BatchManager :=
  let r := scanNext s.processed (s.batches.drop s.current_index) s.current_index
  (r.1, { s with current_index := r.2 })

/-- `BatchManager.mark_batch_processed`: add the batch key to the
processed set. -/
def markBatchProcessed (s : BatchManager) (b : List Int) : BatchManager :=
  { s with processed := if b ∈ s.processed then s.processed else s.processed ++ [b] }

/-- One entry of a storelow `lows` array: the currency of its price
object (`low['price']['currency']`). -/
structure StorelowLow where
  currency : String
deriving DecidableEq

/-- One game object of a storelow response: the `app_id` attached by
`get_store_lowest_prices` (absent when it could not be mapped) and the
`lows` array. -/
structure StorelowGame where
  app_id : Option Int
  lows : List StorelowLow
deriving DecidableEq

/-- Add currency `c` to the set recorded for app `a` (Python
`set.add`). -/
def addAvail (avail : Int → List String) (a : Int) (c : String) : Int → List String :=
  fun x => if x = a then (if c ∈ avail a then avail a else avail a ++ [c]) else avail x

/-- The inner per-game step of Stage 1: `if app_id and lows:` then scan
the lows for one whose currency matches (the `break` makes this an
existence check); the dict update requires `a` to be a key of
`available_currencies`, i.e. a member of the batch. -/
def stage1Game (app_ids : List Int) (c : String) (avail : Int → List String)
    (g : StorelowGame) : Int → List String :=
  match g.app_id with
  | none => avail
  | some a =>
    if a ≠ 0 ∧ g.lows ≠ [] ∧ a ∈ app_ids ∧
        (List.any g.lows fun low => decide (low.currency.toUpper = c.toUpper)) then
      addAvail avail a c
    else avail

/-- `_determine_available_currencies` (Stage 1): one batched storelow
probe per currency; a currency is confirmed for an app only when the
probe returned a low with that currency for that app.  `country` is the
currency-to-country mapping and `storelow` the probe oracle (`none`
models a failed or empty response). -/
def determineAvailableCurrencies (app_ids : List Int) (currencyList : List String)
    (country : String → Option String)
    (storelow : String → Option (List StorelowGame)) : Int → List String :=
  List.foldl
    (fun avail c =>
      match country c with
      | none => avail
      | some _ =>
        match storelow c with
        | none => avail
        | some games =>
          if games.isEmpty then avail
          else List.foldl (stage1Game app_ids c) avail games)
    (fun _ => []) currencyList

/-- Observable actions of `parse_price_history_batch`: checkpoint marks
and Stage-2 history calls. -/
inductive ItadEvent where
  | markError (app : Int) (msg : String)
  | markCurrenciesChecked (app : Int) (currencies : List String)
  | stage2Call (app : Int) (currency : String)
  | markCompleted (app : Int) (records : Nat)
deriving DecidableEq

/-- `int(shop_id.split('/')[-1])`, `None` on a parse failure. -/
def parseShopAppId (shop_id : String) : Option Int :=
  match (shop_id.splitOn "/").getLast? with
  | none => none
  | some seg => seg.toInt?

/-- Building `self._uuid_cache` from the lookup response: keep entries
whose uuid is truthy and whose shop id parses to an int; later entries
overwrite earlier ones (dict semantics). -/
def buildUuidCache (resp : List (String × Option String)) : List (Int × String) :=
  List.foldl
    (fun acc p =>
      match p.2 with
      | none => acc
      | some u =>
        if u = "" then acc
        else
          match parseShopAppId p.1 with
          | none => acc
          | some a => (List.filter (fun q => decide (q.1 ≠ a)) acc) ++ [(a, u)])
    [] resp

/-- Lookup in the uuid cache. -/
def cacheLookup (cache : List (Int × String)) (app : Int) : Option String :=
  (List.find? (fun p => decide (p.1 = app)) cache).map Prod.snd

/-- `_fetch_history_for_currencies` (Stage 2): one history call per
confirmed currency whose country mapping exists (`hist` is the oracle
giving the parsed records of one `(uuid, currency)` call); returns the
Stage-2 call events and the concatenated records. -/
def fetchHistoryForCurrencies {R : Type} (app : Int) (uuid : String)
    (currencies : List String) (country : String → Option String)
    (hist : String → String → List R) : List ItadEvent × List R :=
  (currencies.flatMap fun c =>
     match country c with
     | none => []
     | some _ => [ItadEvent.stage2Call app c],
   currencies.flatMap fun c =>
     match country c with
     | none => []
     | some _ => hist uuid c)

/-- The per-app body of the Step-3 loop of `parse_price_history_batch`:
no uuid → error mark; empty confirmed-currency set → error mark
(Stage 2 skipped); otherwise mark the currencies checked, run Stage 2,
and mark completed or error depending on whether records came back. -/
def perAppItadEvents {R : Type} (cache : List (Int × String)) (avail : Int → List String)
    (country : String → Option String) (hist : String → String → List R)
    (app : Int) : List ItadEvent :=
  match cacheLookup cache app with
  | none => [ItadEvent.markError app "UUID not found in lookup"]
  | some uuid =>
    let currencies := avail app
    if currencies.isEmpty then [ItadEvent.markError app "No currencies found in ITAD"]
    else
      let fetched := fetchHistoryForCurrencies app uuid currencies country hist
      [ItadEvent.markCurrenciesChecked app currencies] ++ fetched.1 ++
        (if fetched.2.isEmpty then [ItadEvent.markError app "No history records found"]
         else [ItadEvent.markCompleted app fetched.2.length])

/-- `parse_price_history_batch`: a failed/empty uuid lookup aborts the
batch with no per-app processing; otherwise Stage 1 runs once for the
batch and each app is processed by `perAppItadEvents`. -/
def parsePriceHistoryBatch {R : Type} (app_ids : List Int) (currencyList : List String)
    (country : String → Option String) (storelow : String → Option (List StorelowGame))
    (lookup_response : Option (List (String × Option String)))
    (hist : String → String → List R) : List ItadEvent :=
  match lookup_response with
  | none => []
  | some resp =>
    if resp.isEmpty then []
    else
      let cache := buildUuidCache resp
      let avail := determineAvailableCurrencies app_ids currencyList country storelow
      app_ids.flatMap (perAppItadEvents cache avail country hist)

/-- Outcome of one attempt of the retry loop in
`SteamChartsParser._fetch_api`. -/
inductive FetchAttempt where
  | status404
  | status429
  | statusOther (code : Nat)
  | jsonError
  | notAList
  | timeout
  | clientError
  | otherExc
  | ok (data : List (List Int))
deriving DecidableEq

/-- Whether the attempt produced a parsed JSON list. -/
def FetchAttempt.isOk : FetchAttempt → Bool
  | .ok _ => true
  | _ => false

/-- `_fetch_api`: the retry loop over the attempt outcomes.  404,
non-list JSON and unexpected exceptions return `[]` immediately; 429
always retries; other failures retry unless this was the last attempt;
exhausting the loop returns `[]`. -/
def fetchApi : List FetchAttempt → List (List Int)
  | [] => []
  | a :: rest =>
    match a with
    | .status404 => []
    | .status429 => fetchApi rest
    | .statusOther _ => if rest.isEmpty then [] else fetchApi rest
    | .jsonError => if rest.isEmpty then [] else fetchApi rest
    | .notAList => []
    | .timeout => if rest.isEmpty then [] else fetchApi rest
    | .clientError => if rest.isEmpty then [] else fetchApi rest
    | .otherExc => []
    | .ok data => data

/-- `_process_raw_data`: keep points with at least two entries,
normalize a milliseconds timestamp to seconds, and render the datetime
with the formatter `fmt`. -/
def processRawData (fmt : Int → String) (data : List (List Int)) : List (String × Int) :=
  data.flatMap fun point =>
    match point with
    | t :: p :: _ => [(fmt (if t > 10000000000 then t / 1000 else t), p)]
    | _ => []

/-- The per-item result of `fetch_ccu_data`: the dict
`{'avg': [...]}`. -/
structure CCUResult where
  avg : List (String × Int)
deriving DecidableEq

/-- `SteamChartsParser.fetch_ccu_data`: empty raw data, empty processed
data and every caught exception all yield `{'avg': []}`. -/
def fetchCcuData (fmt : Int → String) (attempts : List FetchAttempt) : CCUResult :=
  let raw := fetchApi attempts
  if raw.isEmpty then { avg := [] }
  else
    let processed := processRawData fmt raw
    if processed.isEmpty then { avg := [] } else { avg := processed }

/-- Per-item fetch results handed to the SteamCharts branch of
`process_batch_async`: `avg` from `fetch_ccu_data` and `peak` from
`dict.get('peak', [])`. -/
structure CCUFetchDict where
  avg : List (String × Int)
  peak : List (String × Int)
deriving DecidableEq

/-- Observable actions of the SteamCharts branch of
`process_batch_async`. -/
inductive ParserEvent where
  | saveCcu (app : Int) (records : Nat) (value_type : String)
  | ccuDone (app : Int) (total : Nat)
  | appError (app : Int) (error_type : String) (msg : String)
deriving DecidableEq

/-- The SteamCharts branch of `SteamDBParser.process_batch_async`: per
item, save non-empty avg/peak data, then mark CCU done when the total
record count is positive and mark a `'No data returned'` ccu error
otherwise; a raised per-item exception is caught and marked as a ccu
error with the exception text. -/
def processBatchSteamcharts (batch : List Int)
    (fetch : Int → Except String CCUFetchDict) : List ParserEvent :=
  batch.flatMap fun app =>
    match fetch app with
    | Except.error e => [ParserEvent.appError app "ccu" e]
    | Except.ok d =>
      (if d.avg.isEmpty then [] else [ParserEvent.saveCcu app d.avg.length "avg"]) ++
      (if d.peak.isEmpty then [] else [ParserEvent.saveCcu app d.peak.length "peak"]) ++
      (if d.avg.length + d.peak.length > 0 then
        [ParserEvent.ccuDone app (d.avg.length + d.peak.length)]
       else [ParserEvent.appError app "ccu" "No data returned"])

/-- C6 counterexample: with rate 2 and a full bucket, 10 back-to-back
`acquire()` calls (zero-jitter model) do NOT take between 4.5 and 6
seconds of wall-clock waiting. -/
theorem rate_limiter_claimed_bounds_fail :
    ¬((9 / 2 : ℚ) ≤ rlRun { rate := 2, tokens := 2, last_update := 0 } 0 10 ∧
      rlRun { rate := 2, tokens := 2, last_update := 0 } 0 10 ≤ 6) := by
  norm_num [rlRun, rlAcquire, min_def]

/-- C6 (amended): for a `RateLimiter` with rate 2 tokens/second and an
initially full bucket, 10 back-to-back sequential `acquire()` calls
incur a total wait of exactly 2 seconds in the zero-jitter model: the
first two calls consume the initial burst, and because `last_update` is
not advanced past a sleep, the time slept is credited again as refill
at the next call, so the remaining calls alternate between a 0.5 s wait
and no wait. -/
theorem rate_limiter_ten_acquires_wait_two :
    rlRun { rate := 2, tokens := 2, last_update := 0 } 0 10 = 2 := by
  norm_num [rlRun, rlAcquire, min_def]

/-- C2 counterexample: for an item whose CCU sub-result succeeded
(status `ccu_done`), recording a price error via `mark_app_error` gives
`price_error`, and a zero-record price result via `mark_price_done`
gives `ccu_error`; neither is the combined-error state `both_error`. -/
theorem price_error_after_ccu_done_is_not_both_error :
    let r0 : AppRow :=
      { status := "ccu_done", ccu_processed := 42, price_processed := 0, ccu_error := none,
        price_error := none, last_updated := "t1", ccu_url := none, price_url := none,
        itad_currencies_checked := none, itad_price_processed := 0, itad_error := none }
    (markAppError (some r0) "price" "boom" none "t2").status = "price_error" ∧
    (markPriceDone (some r0) 0 "t2").status = "ccu_error" ∧
    "price_error" ≠ "both_error" ∧ "ccu_error" ≠ "both_error" := by
  decide

/-- C2 (amended): recording a price error via `mark_app_error`
transitions to the combined-error state `both_error` exactly when the
item's CCU sub-result had already FAILED (current status `ccu_error`),
and to `price_error` otherwise — in particular when CCU succeeded; a
zero-record price result via `mark_price_done` yields `ccu_error` when
the current status is `ccu_done` and `price_error` otherwise. -/
theorem price_error_status_transitions (r : AppRow) (msg : String) (url : Option String)
    (now : String) :
    (markAppError (some r) "price" msg url now).status =
      (if r.status = "ccu_error" then "both_error" else "price_error") ∧
    (markPriceDone (some r) 0 now).status =
      (if r.status = "ccu_done" then "ccu_error" else "price_error") ∧
    ((markAppError (some r) "price" msg url now).status = "both_error" ↔
      r.status = "ccu_error") := by
  by_cases h : r.status = "ccu_error" <;>
    by_cases h2 : r.status = "ccu_done" <;>
      simp [markAppError, markPriceDone, updateAppStatusSqlite, h, h2]

/-- C3 counterexample: `/itad/retry-errors` leaves an item in the error
state `price_error` completely untouched (its status is not reset to
`pending`), even while it does reset an `itad_error` item in the same
table. -/
theorem retry_errors_skips_price_error_rows :
    let rPrice : AppRow :=
      { status := "price_error", ccu_processed := 0, price_processed := 0, ccu_error := none,
        price_error := some "boom", last_updated := "t1", ccu_url := none, price_url := none,
        itad_currencies_checked := none, itad_price_processed := 0, itad_error := none }
    let rItad : AppRow :=
      { status := "itad_error", ccu_processed := 0, price_processed := 0, ccu_error := none,
        price_error := none, last_updated := "t1", ccu_url := none, price_url := none,
        itad_currencies_checked := some "USD", itad_price_processed := 3,
        itad_error := some "No currencies found in ITAD" }
    getApp (retryItadErrors [(1, rPrice), (2, rItad)] [] []).1 1 = some rPrice ∧
    rPrice.status ≠ "pending" ∧
    getApp (retryItadErrors [(1, rPrice), (2, rItad)] [] []).1 2 = some (resetItadRow rItad) := by
  decide

/-- C3 (amended): the retry-errors operation resets exactly the items
whose status is `itad_error` to `pending`, clearing their `itad_error`
text, `itad_price_processed` counter and `itad_currencies_checked` set
while keeping their other columns; items in any other state (including
`completed` and the dual-fetch error states such as `price_error`) are
left unchanged, and the persisted `ccu_history` / `price_history`
tables are untouched. -/
theorem retry_itad_errors_resets_exactly_itad_error (t : AppTable) (ccu : List CcuRow)
    (price : List PriceRow) :
    (retryItadErrors t ccu price).2.1 = ccu ∧
    (retryItadErrors t ccu price).2.2 = price ∧
    (retryItadErrors t ccu price).1 =
      List.map (fun p => if p.2.status = "itad_error" then (p.1, resetItadRow p.2) else p) t ∧
    (∀ r : AppRow, r.status = "itad_error" →
      (resetItadRow r).status = "pending" ∧ (resetItadRow r).itad_error = none ∧
      (resetItadRow r).itad_price_processed = 0 ∧
      (resetItadRow r).itad_currencies_checked = none ∧
      (resetItadRow r).ccu_processed = r.ccu_processed ∧
      (resetItadRow r).price_processed = r.price_processed ∧
      (resetItadRow r).ccu_error = r.ccu_error ∧
      (resetItadRow r).price_error = r.price_error ∧
      (resetItadRow r).last_updated = r.last_updated) := by
  refine ⟨?_, ?_, ?_, ?_⟩
  · by_cases h : (List.filter (fun p => decide (p.2.status = "itad_error")) t).length = 0 <;>
      simp [retryItadErrors, h]
  · by_cases h : (List.filter (fun p => decide (p.2.status = "itad_error")) t).length = 0 <;>
      simp [retryItadErrors, h]
  · by_cases h : (List.filter (fun p => decide (p.2.status = "itad_error")) t).length = 0
    · have hnil : List.filter (fun p => decide (p.2.status = "itad_error")) t = [] :=
        List.length_eq_zero.mp h
      have hall : ∀ p ∈ t, ¬(p.2.status = "itad_error") := by
        intro p hp
        have := List.filter_eq_nil_iff.mp hnil p hp
        simpa using this
      have hmap : List.map
          (fun p => if p.2.status = "itad_error" then (p.1, resetItadRow p.2) else p) t =
          List.map id t := by
        apply List.map_congr_left
        intro p hp
        simp [hall p hp]
      simp [retryItadErrors, h, hmap]
    · simp [retryItadErrors, h]
  · intro r hr
    simp [resetItadRow]

/-- Witness for C3 (amended) at a concrete table. -/
theorem retry_itad_errors_resets_witness :
    (retryItadErrors [] [] []).2.1 = ([] : List CcuRow) ∧
    (resetItadRow
      { status := "itad_error", ccu_processed := 0, price_processed := 0, ccu_error := none,
        price_error := none, last_updated := "t1", ccu_url := none, price_url := none,
        itad_currencies_checked := none, itad_price_processed := 0,
        itad_error := some "boom" }).status = "pending" :=
  ⟨(retry_itad_errors_resets_exactly_itad_error [] [] []).1,
   ((retry_itad_errors_resets_exactly_itad_error [] [] []).2.2.2
      { status := "itad_error", ccu_processed := 0, price_processed := 0, ccu_error := none,
        price_error := none, last_updated := "t1", ccu_url := none, price_url := none,
        itad_currencies_checked := none, itad_price_processed := 0,
        itad_error := some "boom" } (by decide)).1⟩

/-- Returning `none` leaves the cursor at the end of the scan. -/
theorem scanNext_none_iff (p : List (List Int)) :
    ∀ (l : List (List Int)) (i : Nat), (scanNext p l i).1 = none ↔ ∀ b ∈ l, b ∈ p
  | [], i => by simp [scanNext]
  | b :: rest, i => by
    by_cases hb : b ∈ p
    · simp [scanNext, hb, scanNext_none_iff p rest (i + 1)]
    · simp [scanNext, hb]

/-- A successful scan returns the first unprocessed batch of the
suffix, with every skipped batch processed, and advances the cursor
just past it. -/
theorem scanNext_some_spec (p : List (List Int)) :
    ∀ (l : List (List Int)) (i : Nat) (b : List Int), (scanNext p l i).1 = some b →
      b ∉ p ∧ ∃ pre post, l = pre ++ b :: post ∧ (∀ x ∈ pre, x ∈ p) ∧
        (scanNext p l i).2 = i + pre.length + 1
  | [], i, b => by simp [scanNext]
  | x :: rest, i, b => by
    by_cases hx : x ∈ p
    · intro h
      simp only [scanNext, if_pos hx] at h ⊢
      obtain ⟨hb, pre, post, hl, hpre, hidx⟩ := scanNext_some_spec p rest (i + 1) b h
      refine ⟨hb, x :: pre, post, by simp [hl], ?_, ?_⟩
      · intro y hy
        rcases List.mem_cons.mp hy with hy | hy
        · exact hy ▸ hx
        · exact hpre y hy
      · simp only [List.length_cons]
        omega
    · intro h
      simp only [scanNext, if_neg hx] at h ⊢
      have hxb : x = b := by simpa using h
      subst hxb
      exact ⟨hx, [], rest, rfl, by simp, by simp⟩

/-- C7 counterexample: with two singleton batches and nothing ever
marked processed, the third `get_next_batch` call returns the sentinel
`None` although no batch is in the processed set — the batch `[1]`,
returned earlier but never marked, is skipped forever instead of being
returned again. -/
theorem get_next_batch_abandons_unmarked_batches :
    let s0 := mkBatchManager [1, 2] 1
    let r1 := getNextBatch s0
    let r2 := getNextBatch r1.2
    let r3 := getNextBatch r2.2
    r1.1 = some [1] ∧ r2.1 = some [2] ∧ r3.1 = none ∧
    r2.2.processed = [] ∧ r2.2.batches = [[1], [2]] := by
  decide

/-- C7 (amended): `get_next_batch` scans only forward from the internal
cursor `current_index`, which never moves back: it returns the first
batch at or after the cursor that is not in the processed set (every
batch it skips is in the processed set) and advances the cursor past
it; it returns `None` exactly when every batch at or after the cursor
is in the processed set — so within one `BatchManager` a batch that was
returned earlier but never marked processed is not returned again. -/
theorem get_next_batch_cursor_semantics (s : BatchManager) :
    ((getNextBatch s).1 = none ↔ ∀ b ∈ s.batches.drop s.current_index, b ∈ s.processed) ∧
    (∀ b, (getNextBatch s).1 = some b →
      b ∉ s.processed ∧ ∃ pre post, s.batches.drop s.current_index = pre ++ b :: post ∧
        (∀ x ∈ pre, x ∈ s.processed) ∧
        (getNextBatch s).2.current_index = s.current_index + pre.length + 1) ∧
    (getNextBatch s).2.batches = s.batches ∧
    (getNextBatch s).2.processed = s.processed := by
  refine ⟨?_, ?_, rfl, rfl⟩
  · simpa [getNextBatch] using
      scanNext_none_iff s.processed (s.batches.drop s.current_index) s.current_index
  · intro b h
    simp only [getNextBatch] at h ⊢
    exact scanNext_some_spec _ _ _ _ h

/-- Witness for C7 (amended) at a concrete manager. -/
theorem get_next_batch_cursor_witness :
    [5] ∉ (mkBatchManager [5] 1).processed ∧
    (getNextBatch (mkBatchManager [5] 1)).2.batches = (mkBatchManager [5] 1).batches :=
  ⟨((get_next_batch_cursor_semantics (mkBatchManager [5] 1)).2.1 [5] (by decide)).1,
   (get_next_batch_cursor_semantics (mkBatchManager [5] 1)).2.2.1⟩

theorem getApp_append_some (t l : AppTable) (id : Int) (r : AppRow)
    (h : getApp t id = some r) : getApp (t ++ l) id = some r := by
  simp only [getApp] at h ⊢
  obtain ⟨p, hp, hp2⟩ := Option.map_eq_some'.mp h
  rw [List.find?_append, hp]
  simp [hp2]

theorem getApp_append_single (t : AppTable) (id a : Int) (row : AppRow)
    (h : getApp t id = none) :
    getApp (t ++ [(a, row)]) id = if id = a then some row else none := by
  simp only [getApp] at h ⊢
  have hf : List.find? (fun p => decide (p.1 = id)) t = none := by
    cases hx : List.find? (fun p => decide (p.1 = id)) t
    · rfl
    · rw [hx] at h
      simp at h
  rw [List.find?_append, hf]
  by_cases hid : id = a
  · subst hid
    simp [List.find?]
  · have hda : (decide (a = id)) = false := by
      simp
      intro hcon
      exact absurd hcon.symm hid
    simp [List.find?, hda, hid]

theorem initAppIds_preserves (now : String) :
    ∀ (ids : List Int) (t : AppTable) (id : Int) (r : AppRow),
      getApp t id = some r → getApp (initAppIds t ids now) id = some r
  | [], t, id, r => fun h => h
  | id0 :: rest, t, id, r => by
    intro h
    have hstep : getApp (if (getApp t id0).isSome then t else t ++ [(id0, initRow now)]) id
        = some r := by
      by_cases hs : (getApp t id0).isSome
      · rw [if_pos hs]
        exact h
      · rw [if_neg hs]
        exact getApp_append_some t _ id r h
    have := initAppIds_preserves now rest
      (if (getApp t id0).isSome then t else t ++ [(id0, initRow now)]) id r hstep
    simpa [initAppIds, List.foldl_cons] using this

theorem initAppIds_inserts (now : String) :
    ∀ (ids : List Int) (t : AppTable) (id : Int),
      id ∈ ids → getApp t id = none → getApp (initAppIds t ids now) id = some (initRow now)
  | [], t, id => by simp
  | id0 :: rest, t, id => by
    intro hmem h
    by_cases hid : id = id0
    · subst hid
      have hs : (getApp t id).isSome = false := by simp [h]
      have hstep : getApp (t ++ [(id, initRow now)]) id = some (initRow now) := by
        rw [getApp_append_single t id id (initRow now) h]
        simp
      have := initAppIds_preserves now rest (t ++ [(id, initRow now)]) id (initRow now) hstep
      simpa [initAppIds, List.foldl_cons, hs] using this
    · have hmem2 : id ∈ rest := by
        rcases List.mem_cons.mp hmem with hc | hc
        · exact absurd hc hid
        · exact hc
      have hstep : getApp (if (getApp t id0).isSome then t else t ++ [(id0, initRow now)]) id
          = none := by
        by_cases hs : (getApp t id0).isSome
        · rw [if_pos hs]
          exact h
        · rw [if_neg hs]
          rw [getApp_append_single t id id0 (initRow now) h]
          simp [hid]
      have := initAppIds_inserts now rest
        (if (getApp t id0).isSome then t else t ++ [(id0, initRow now)]) id hmem2 hstep
      simpa [initAppIds, List.foldl_cons] using this

/-- C9: `initialize_app_ids` inserts a `pending` row only for ids with
no existing `app_status` row; every existing row is left completely
unchanged. -/
theorem init_app_ids_upsert_if_unseen (t : AppTable) (ids : List Int) (now : String) :
    (∀ id r, getApp t id = some r → getApp (initAppIds t ids now) id = some r) ∧
    (∀ id, id ∈ ids → getApp t id = none →
      getApp (initAppIds t ids now) id = some (initRow now)) :=
  ⟨fun id r h => initAppIds_preserves now ids t id r h,
   fun id hm h => initAppIds_inserts now ids t id hm h⟩

/-- Witness for C9: one already-completed row survives untouched while
an unseen id is inserted as `pending`. -/
theorem init_app_ids_upsert_witness :
    getApp (initAppIds
      [(1, { status := "completed", ccu_processed := 7, price_processed := 9,
             ccu_error := none, price_error := none, last_updated := "t0", ccu_url := none,
             price_url := none, itad_currencies_checked := none, itad_price_processed := 0,
             itad_error := none })] [1, 2] "t1") 1 =
      some { status := "completed", ccu_processed := 7, price_processed := 9,
             ccu_error := none, price_error := none, last_updated := "t0", ccu_url := none,
             price_url := none, itad_currencies_checked := none, itad_price_processed := 0,
             itad_error := none } ∧
    getApp (initAppIds
      [(1, { status := "completed", ccu_processed := 7, price_processed := 9,
             ccu_error := none, price_error := none, last_updated := "t0", ccu_url := none,
             price_url := none, itad_currencies_checked := none, itad_price_processed := 0,
             itad_error := none })] [1, 2] "t1") 2 = some (initRow "t1") :=
  ⟨(init_app_ids_upsert_if_unseen
      [(1, { status := "completed", ccu_processed := 7, price_processed := 9,
             ccu_error := none, price_error := none, last_updated := "t0", ccu_url := none,
             price_url := none, itad_currencies_checked := none, itad_price_processed := 0,
             itad_error := none })] [1, 2] "t1").1 1 _ (by decide),
   (init_app_ids_upsert_if_unseen
      [(1, { status := "completed", ccu_processed := 7, price_processed := 9,
             ccu_error := none, price_error := none, last_updated := "t0", ccu_url := none,
             price_url := none, itad_currencies_checked := none, itad_price_processed := 0,
             itad_error := none })] [1, 2] "t1").2 2 (by decide) (by decide)⟩

/-- C10: on the SQLite backend `update_app_status` replaces the whole
row: the stored row after the call is built solely from `status`,
`last_updated` and the passed kwargs, independent of any previous row,
and every column whose kwarg was not passed holds NULL or its schema
default. -/
theorem update_app_status_replaces_row (t : AppTable) (id : Int) (st now : String)
    (kw : UpdateKw) :
    getApp (dbUpdateAppStatus t id st now kw) id = some (updateAppStatusSqlite st now kw) ∧
    (kw.ccu_processed = none → (updateAppStatusSqlite st now kw).ccu_processed = 0) ∧
    (kw.price_processed = none → (updateAppStatusSqlite st now kw).price_processed = 0) ∧
    (kw.ccu_error = none → (updateAppStatusSqlite st now kw).ccu_error = none) ∧
    (kw.price_error = none → (updateAppStatusSqlite st now kw).price_error = none) ∧
    (kw.ccu_url = none → (updateAppStatusSqlite st now kw).ccu_url = none) ∧
    (kw.price_url = none → (updateAppStatusSqlite st now kw).price_url = none) ∧
    (kw.itad_currencies_checked = none →
      (updateAppStatusSqlite st now kw).itad_currencies_checked = none) ∧
    (kw.itad_price_processed = none →
      (updateAppStatusSqlite st now kw).itad_price_processed = 0) ∧
    (kw.itad_error = none → (updateAppStatusSqlite st now kw).itad_error = none) := by
  have hf : List.find? (fun p => decide (p.1 = id))
      (List.filter (fun p => decide (p.1 ≠ id)) t) = none := by
    rw [List.find?_eq_none]
    intro x hx
    have h2 := (List.mem_filter.mp hx).2
    simp at h2 ⊢
    exact h2
  refine ⟨?_, ?_, ?_, ?_, ?_, ?_, ?_, ?_, ?_, ?_⟩ <;>
    first
      | (simp [getApp, dbUpdateAppStatus, List.find?_append, hf, List.find?])
      | (intro h; simp [updateAppStatusSqlite, h])

/-- Witness for C10: an update that records only a price error resets a
previously stored `ccu_processed` count of 5 back to the default 0. -/
theorem update_app_status_replaces_row_witness :
    getApp (dbUpdateAppStatus
      [(3, { status := "ccu_done", ccu_processed := 5, price_processed := 0, ccu_error := none,
             price_error := none, last_updated := "t0", ccu_url := none, price_url := none,
             itad_currencies_checked := none, itad_price_processed := 0, itad_error := none })]
      3 "price_error" "t1" { price_error := some (some "boom") }) 3 =
      some (updateAppStatusSqlite "price_error" "t1" { price_error := some (some "boom") }) ∧
    (updateAppStatusSqlite "price_error" "t1"
      { price_error := some (some "boom") }).ccu_processed = 0 :=
  ⟨(update_app_status_replaces_row
      [(3, { status := "ccu_done", ccu_processed := 5, price_processed := 0, ccu_error := none,
             price_error := none, last_updated := "t0", ccu_url := none, price_url := none,
             itad_currencies_checked := none, itad_price_processed := 0, itad_error := none })]
      3 "price_error" "t1" { price_error := some (some "boom") }).1,
   (update_app_status_replaces_row
      [(3, { status := "ccu_done", ccu_processed := 5, price_processed := 0, ccu_error := none,
             price_error := none, last_updated := "t0", ccu_url := none, price_url := none,
             itad_currencies_checked := none, itad_price_processed := 0, itad_error := none })]
      3 "price_error" "t1" { price_error := some (some "boom") }).2.1 rfl⟩

/-- The `_fetch_api` retry loop returns `[]` whenever no attempt
produced a parsed JSON list. -/
theorem fetchApi_all_failures : ∀ (attempts : List FetchAttempt),
    (∀ a ∈ attempts, a.isOk = false) → fetchApi attempts = []
  | [] => fun _ => rfl
  | a :: rest => by
    intro h
    have hrest : ∀ x ∈ rest, x.isOk = false := fun x hx => h x (List.mem_cons_of_mem a hx)
    have ha := h a (List.mem_cons_self a rest)
    cases a with
    | status404 => rfl
    | status429 => exact fetchApi_all_failures rest hrest
    | statusOther code =>
      simp only [fetchApi]
      split
      · rfl
      · exact fetchApi_all_failures rest hrest
    | jsonError =>
      simp only [fetchApi]
      split
      · rfl
      · exact fetchApi_all_failures rest hrest
    | notAList => rfl
    | timeout =>
      simp only [fetchApi]
      split
      · rfl
      · exact fetchApi_all_failures rest hrest
    | clientError =>
      simp only [fetchApi]
      split
      · rfl
      · exact fetchApi_all_failures rest hrest
    | otherExc => rfl
    | ok data => simp [FetchAttempt.isOk] at ha

/-- C8: for every sequence of per-attempt failures (404, 429 on every
attempt, unexpected status, malformed JSON, non-list JSON, timeout,
client error or any other exception), `fetch_ccu_data` returns the
empty per-item result `{'avg': []}` instead of propagating an
exception. -/
theorem fetch_ccu_data_failure_yields_empty (fmt : Int → String) (attempts : List FetchAttempt)
    (h : ∀ a ∈ attempts, a.isOk = false) :
    fetchCcuData fmt attempts = { avg := [] } := by
  have hr := fetchApi_all_failures attempts h
  simp [fetchCcuData, hr]

/-- C4: an item whose CCU fetch succeeds with zero total records is
marked with the ccu error `'No data returned'` and never marked CCU
done; `mark_ccu_done` with count 0 sets status `ccu_error`, and
`ccu_done` is set exactly when the count is positive. -/
theorem zero_record_ccu_fetch_is_error (batch : List Int) (fetch : Int → Except String CCUFetchDict)
    (app : Int) (d : CCUFetchDict) (now : String)
    (h1 : app ∈ batch) (h2 : fetch app = Except.ok d) (h3 : d.avg = []) (h4 : d.peak = []) :
    ParserEvent.appError app "ccu" "No data returned" ∈ processBatchSteamcharts batch fetch ∧
    (∀ n, ParserEvent.ccuDone app n ∉ processBatchSteamcharts batch fetch) ∧
    (markCcuDone 0 now).status = "ccu_error" ∧
    (∀ m : Int, (markCcuDone m now).status = if m > 0 then "ccu_done" else "ccu_error") := by
  refine ⟨?_, ?_, ?_, ?_⟩
  · exact List.mem_flatMap.mpr ⟨app, h1, by simp [h2, h3, h4]⟩
  · intro n hn
    obtain ⟨a, ha, hev⟩ := List.mem_flatMap.mp hn
    by_cases haa : a = app
    · subst haa
      rw [h2] at hev
      simp [h3, h4] at hev
    · cases hfa : fetch a with
      | error e =>
        rw [hfa] at hev
        simp at hev
      | ok d2 =>
        rw [hfa] at hev
        rcases List.mem_append.mp hev with hev1 | hev2
        · rcases List.mem_append.mp hev1 with ha1 | ha2
          · split at ha1 <;> simp at ha1
          · split at ha2 <;> simp at ha2
        · split at hev2 <;> simp at hev2
          exact haa hev2.1.symm
  · simp [markCcuDone, updateAppStatusSqlite]
  · intro m
    by_cases hm : m > 0 <;> simp [markCcuDone, updateAppStatusSqlite, hm]

/-- Witness for C8 at a concrete failing attempt sequence. -/
theorem fetch_ccu_data_failure_witness :
    (∀ a ∈ [FetchAttempt.timeout, FetchAttempt.status429, FetchAttempt.jsonError],
      a.isOk = false) ∧
    fetchCcuData (fun _ => "1970-01-01 00:00:00")
      [FetchAttempt.timeout, FetchAttempt.status429, FetchAttempt.jsonError] = { avg := [] } :=
  ⟨by decide,
   fetch_ccu_data_failure_yields_empty (fun _ => "1970-01-01 00:00:00")
     [FetchAttempt.timeout, FetchAttempt.status429, FetchAttempt.jsonError] (by decide)⟩

/-- Witness for C4 at a concrete batch: app 8 fetches successfully but
with zero records. -/
theorem zero_record_ccu_fetch_witness :
    ParserEvent.appError 8 "ccu" "No data returned" ∈
      processBatchSteamcharts [8] (fun _ => Except.ok { avg := [], peak := [] }) ∧
    (markCcuDone 0 "t1").status = "ccu_error" :=
  ⟨(zero_record_ccu_fetch_is_error [8] (fun _ => Except.ok { avg := [], peak := [] })
      8 { avg := [], peak := [] } "t1" (by decide) rfl rfl rfl).1,
   (zero_record_ccu_fetch_is_error [8] (fun _ => Except.ok { avg := [], peak := [] })
      8 { avg := [], peak := [] } "t1" (by decide) rfl rfl rfl).2.2.1⟩

/-- Folding over the `DB_BATCH_SIZE` chunks is folding over the whole
value list. -/
theorem foldl_toBatchesAux {α β : Type} (f : β → α → β) (n : Nat) :
    ∀ (l acc0 : List α) (b : β),
      List.foldl (fun s c => List.foldl f s c) b (toBatchesAux n l acc0) =
        List.foldl f b (acc0 ++ l)
  | [], acc0, b => by
    by_cases h : acc0.isEmpty
    · have hnil : acc0 = [] := by simpa using h
      simp [toBatchesAux, h, hnil]
    · simp [toBatchesAux, h]
  | x :: xs, acc0, b => by
    by_cases h : acc0.length + 1 = n
    · simp only [toBatchesAux, if_pos h, List.foldl_cons]
      rw [foldl_toBatchesAux f n xs [] (List.foldl f b (acc0 ++ [x]))]
      rw [show acc0 ++ x :: xs = (acc0 ++ [x]) ++ xs by simp]
      rw [List.foldl_append]
      simp
    · simp only [toBatchesAux, if_neg h]
      rw [foldl_toBatchesAux f n xs (acc0 ++ [x]) b]
      congr 1
      simp

theorem saveCcuData_eq_foldl (t : List CcuRow) (app_id : Int) (data : List (String × Int))
    (vt : String) :
    saveCcuData t app_id data vt =
      if data.isEmpty then t
      else List.foldl (insertIgnoreKeyed ccuKey) t
        (data.map fun item => CcuRow.mk app_id item.1 item.2 vt) := by
  unfold saveCcuData toBatches
  split
  · rfl
  · rw [foldl_toBatchesAux (insertIgnoreKeyed ccuKey) dbBatchSize]
    simp

theorem savePriceData_eq_foldl (t : List PriceRow) (app_id : Int)
    (data : List (String × ℚ × String × String)) :
    savePriceData t app_id data =
      if data.isEmpty then t
      else List.foldl (insertIgnoreKeyed priceKey) t
        (data.map fun item => PriceRow.mk app_id item.1 item.2.1 item.2.2.1 item.2.2.2) := by
  unfold savePriceData toBatches
  split
  · rfl
  · rw [foldl_toBatchesAux (insertIgnoreKeyed priceKey) dbBatchSize]
    simp

theorem insertIgnore_of_hasKey {α κ : Type} [DecidableEq κ] (key : α → κ) (t : List α) (r : α)
    (h : hasKey key t (key r) = true) : insertIgnoreKeyed key t r = t := if_pos h

theorem hasKey_insertIgnore_self {α κ : Type} [DecidableEq κ] (key : α → κ) (t : List α)
    (r : α) : hasKey key (insertIgnoreKeyed key t r) (key r) = true := by
  unfold insertIgnoreKeyed
  split
  · assumption
  · simp [hasKey, List.any_append]

theorem hasKey_insertIgnore_mono {α κ : Type} [DecidableEq κ] (key : α → κ) (t : List α)
    (r : α) (k : κ) (h : hasKey key t k = true) :
    hasKey key (insertIgnoreKeyed key t r) k = true := by
  unfold insertIgnoreKeyed
  split
  · exact h
  · simp only [hasKey, List.any_append, Bool.or_eq_true]
    exact Or.inl h

theorem findByKey_insertIgnore {α κ : Type} [DecidableEq κ] (key : α → κ) (t : List α)
    (r : α) (k : κ) (v : α) (h : findByKey key t k = some v) :
    findByKey key (insertIgnoreKeyed key t r) k = some v := by
  unfold insertIgnoreKeyed
  split
  · exact h
  · unfold findByKey at h ⊢
    rw [List.find?_append, h]
    rfl

theorem countByKey_insertIgnore {α κ : Type} [DecidableEq κ] (key : α → κ) (t : List α)
    (r : α) (k : κ) (h : countByKey key t k ≤ 1) :
    countByKey key (insertIgnoreKeyed key t r) k ≤ 1 := by
  unfold insertIgnoreKeyed
  split
  · exact h
  · rename_i hk
    unfold countByKey at h ⊢
    rw [List.countP_append]
    by_cases hkr : key r = k
    · have hz : List.countP (fun x => decide (key x = k)) t = 0 := by
        rw [List.countP_eq_zero]
        intro a ha
        simp only [decide_eq_true_eq]
        intro hak
        apply hk
        unfold hasKey
        rw [List.any_eq_true]
        exact ⟨a, ha, by simp [hak, hkr]⟩
      have ho : List.countP (fun x => decide (key x = k)) [r] = 1 := by simp [hkr]
      omega
    · have : List.countP (fun x => decide (key x = k)) [r] = 0 := by
        simp [hkr]
      omega

theorem foldl_insert_hasKey_mono {α κ : Type} [DecidableEq κ] (key : α → κ) :
    ∀ (vs : List α) (t : List α) (k : κ), hasKey key t k = true →
      hasKey key (List.foldl (insertIgnoreKeyed key) t vs) k = true
  | [], _, _ => fun h => h
  | v :: vs, t, k => fun h =>
    foldl_insert_hasKey_mono key vs (insertIgnoreKeyed key t v) k
      (hasKey_insertIgnore_mono key t v k h)

theorem foldl_insert_findByKey {α κ : Type} [DecidableEq κ] (key : α → κ) :
    ∀ (vs : List α) (t : List α) (k : κ) (v : α), findByKey key t k = some v →
      findByKey key (List.foldl (insertIgnoreKeyed key) t vs) k = some v
  | [], _, _, _ => fun h => h
  | w :: vs, t, k, v => fun h =>
    foldl_insert_findByKey key vs (insertIgnoreKeyed key t w) k v
      (findByKey_insertIgnore key t w k v h)

theorem foldl_insert_countByKey {α κ : Type} [DecidableEq κ] (key : α → κ) :
    ∀ (vs : List α) (t : List α) (k : κ), countByKey key t k ≤ 1 →
      countByKey key (List.foldl (insertIgnoreKeyed key) t vs) k ≤ 1
  | [], _, _ => fun h => h
  | w :: vs, t, k => fun h =>
    foldl_insert_countByKey key vs (insertIgnoreKeyed key t w) k
      (countByKey_insertIgnore key t w k h)

theorem foldl_insert_hasKey_elem {α κ : Type} [DecidableEq κ] (key : α → κ) :
    ∀ (vs : List α) (t : List α) (r : α), r ∈ vs →
      hasKey key (List.foldl (insertIgnoreKeyed key) t vs) (key r) = true
  | v :: vs, t, r, hmem => by
    rcases List.mem_cons.mp hmem with hr | hr
    · subst hr
      exact foldl_insert_hasKey_mono key vs (insertIgnoreKeyed key t r) (key r)
        (hasKey_insertIgnore_self key t r)
    · exact foldl_insert_hasKey_elem key vs (insertIgnoreKeyed key t v) r hr

theorem foldl_insert_idem {α κ : Type} [DecidableEq κ] (key : α → κ) :
    ∀ (vs : List α) (t : List α), (∀ r ∈ vs, hasKey key t (key r) = true) →
      List.foldl (insertIgnoreKeyed key) t vs = t
  | [], _, _ => rfl
  | v :: vs, t, h => by
    rw [List.foldl_cons, insertIgnore_of_hasKey key t v (h v (List.mem_cons_self v vs))]
    exact foldl_insert_idem key vs t fun r hr => h r (List.mem_cons_of_mem v hr)

/-- C5: persisting time-series records is an insert-or-ignore on the
uniqueness key: a repeated `save_ccu_data` / `save_price_data` call on
the same data is a no-op, a stored row is never overwritten (the first
row for a key stays the lookup result), at most one row per key ever
exists, and after a save every saved item's key is present. -/
theorem save_time_series_idempotent_no_overwrite (tc : List CcuRow) (app : Int) (data : List (String × Int)) (vt : String)
    (tp : List PriceRow) (papp : Int) (pdata : List (String × ℚ × String × String)) :
    saveCcuData (saveCcuData tc app data vt) app data vt = saveCcuData tc app data vt ∧
    savePriceData (savePriceData tp papp pdata) papp pdata = savePriceData tp papp pdata ∧
    (∀ k v, findByKey ccuKey tc k = some v →
      findByKey ccuKey (saveCcuData tc app data vt) k = some v) ∧
    (∀ k, countByKey ccuKey tc k ≤ 1 →
      countByKey ccuKey (saveCcuData tc app data vt) k ≤ 1) ∧
    (∀ item, item ∈ data →
      hasKey ccuKey (saveCcuData tc app data vt) (app, item.1, vt) = true) ∧
    (∀ k v, findByKey priceKey tp k = some v →
      findByKey priceKey (savePriceData tp papp pdata) k = some v) ∧
    (∀ k, countByKey priceKey tp k ≤ 1 →
      countByKey priceKey (savePriceData tp papp pdata) k ≤ 1) := by
  refine ⟨?_, ?_, ?_, ?_, ?_, ?_, ?_⟩
  · by_cases hd : data.isEmpty
    · simp [saveCcuData_eq_foldl, hd]
    · have hd2 : data.isEmpty = false := by simpa using hd
      simp only [saveCcuData_eq_foldl, hd2, Bool.false_eq_true, if_false]
      apply foldl_insert_idem
      intro r hr
      exact foldl_insert_hasKey_elem _ _ _ _ hr
  · by_cases hp : pdata.isEmpty
    · simp [savePriceData_eq_foldl, hp]
    · have hp2 : pdata.isEmpty = false := by simpa using hp
      simp only [savePriceData_eq_foldl, hp2, Bool.false_eq_true, if_false]
      apply foldl_insert_idem
      intro r hr
      exact foldl_insert_hasKey_elem _ _ _ _ hr
  · intro k v h
    by_cases hd : data.isEmpty
    · simpa [saveCcuData_eq_foldl, hd] using h
    · have hd2 : data.isEmpty = false := by simpa using hd
      simp only [saveCcuData_eq_foldl, hd2, Bool.false_eq_true, if_false]
      exact foldl_insert_findByKey _ _ _ _ _ h
  · intro k h
    by_cases hd : data.isEmpty
    · simpa [saveCcuData_eq_foldl, hd] using h
    · have hd2 : data.isEmpty = false := by simpa using hd
      simp only [saveCcuData_eq_foldl, hd2, Bool.false_eq_true, if_false]
      exact foldl_insert_countByKey _ _ _ _ h
  · intro item hitem
    have hd2 : data.isEmpty = false := by
      have := List.ne_nil_of_mem hitem
      simp [List.isEmpty_iff, this]
    simp only [saveCcuData_eq_foldl, hd2, Bool.false_eq_true, if_false]
    have hmem : CcuRow.mk app item.1 item.2 vt ∈
        data.map (fun it => CcuRow.mk app it.1 it.2 vt) :=
      List.mem_map_of_mem _ hitem
    have := foldl_insert_hasKey_elem ccuKey
      (data.map fun it => CcuRow.mk app it.1 it.2 vt) tc (CcuRow.mk app item.1 item.2 vt) hmem
    simpa [ccuKey] using this
  · intro k v h
    by_cases hp : pdata.isEmpty
    · simpa [savePriceData_eq_foldl, hp] using h
    · have hp2 : pdata.isEmpty = false := by simpa using hp
      simp only [savePriceData_eq_foldl, hp2, Bool.false_eq_true, if_false]
      exact foldl_insert_findByKey _ _ _ _ _ h
  · intro k h
    by_cases hp : pdata.isEmpty
    · simpa [savePriceData_eq_foldl, hp] using h
    · have hp2 : pdata.isEmpty = false := by simpa using hp
      simp only [savePriceData_eq_foldl, hp2, Bool.false_eq_true, if_false]
      exact foldl_insert_countByKey _ _ _ _ h

/-- Witness for C5: re-saving the point `(1, "d1")` with a different
value neither overwrites the stored row (players 7) nor duplicates it,
and the double save equals the single save. -/
theorem save_time_series_idempotent_witness :
    saveCcuData (saveCcuData [CcuRow.mk 1 "d1" 7 "avg"] 1 [("d1", 5)] "avg") 1 [("d1", 5)]
        "avg" = saveCcuData [CcuRow.mk 1 "d1" 7 "avg"] 1 [("d1", 5)] "avg" ∧
    findByKey ccuKey (saveCcuData [CcuRow.mk 1 "d1" 7 "avg"] 1 [("d1", 5)] "avg")
        (1, "d1", "avg") = some (CcuRow.mk 1 "d1" 7 "avg") ∧
    countByKey ccuKey (saveCcuData [CcuRow.mk 1 "d1" 7 "avg"] 1 [("d1", 5)] "avg")
        (1, "d1", "avg") ≤ 1 :=
  ⟨(save_time_series_idempotent_no_overwrite [CcuRow.mk 1 "d1" 7 "avg"] 1 [("d1", 5)] "avg"
      [] 2 []).1,
   (save_time_series_idempotent_no_overwrite [CcuRow.mk 1 "d1" 7 "avg"] 1 [("d1", 5)] "avg"
      [] 2 []).2.2.1 (1, "d1", "avg") (CcuRow.mk 1 "d1" 7 "avg") (by decide),
   (save_time_series_idempotent_no_overwrite [CcuRow.mk 1 "d1" 7 "avg"] 1 [("d1", 5)] "avg"
      [] 2 []).2.2.2.1 (1, "d1", "avg") (by decide)⟩

/-- Every event emitted by Stage 2 is a `stage2Call` for a currency of
the confirmed set. -/
theorem stage2_mem_fetchHistory {R : Type} (app : Int) (uuid : String)
    (currencies : List String) (country : String → Option String)
    (hist : String → String → List R) (ev : ItadEvent)
    (h : ev ∈ (fetchHistoryForCurrencies app uuid currencies country hist).1) :
    ∃ c ∈ currencies, ev = ItadEvent.stage2Call app c := by
  simp only [fetchHistoryForCurrencies] at h
  obtain ⟨c, hc, hev⟩ := List.mem_flatMap.mp h
  cases hcountry : country c with
  | none =>
    rw [hcountry] at hev
    simp at hev
  | some ctry =>
    rw [hcountry] at hev
    simp at hev
    exact ⟨c, hc, hev⟩

/-- A Stage-2 call event in an app's event list carries that app and a
currency from its confirmed set. -/
theorem stage2_mem_perApp {R : Type} (cache : List (Int × String))
    (avail : Int → List String) (country : String → Option String)
    (hist : String → String → List R) (app a : Int) (c : String)
    (h : ItadEvent.stage2Call a c ∈ perAppItadEvents cache avail country hist app) :
    a = app ∧ c ∈ avail app := by
  unfold perAppItadEvents at h
  split at h
  · simp at h
  · by_cases he : (avail app).isEmpty
    · simp only [he, if_true] at h
      simp at h
    · have he2 : (avail app).isEmpty = false := by simpa using he
      simp only [he2, Bool.false_eq_true, if_false] at h
      rcases List.mem_append.mp h with h1 | h2
      · rcases List.mem_append.mp h1 with h3 | h4
        · simp at h3
        · obtain ⟨c2, hc2, hev⟩ := stage2_mem_fetchHistory app _ (avail app) country hist _ h4
          simp only [ItadEvent.stage2Call.injEq] at hev
          exact ⟨hev.1, hev.2 ▸ hc2⟩
      · split at h2 <;> simp at h2

/-- A completion mark only arises for an app whose confirmed set is
non-empty. -/
theorem completed_mem_perApp {R : Type} (cache : List (Int × String))
    (avail : Int → List String) (country : String → Option String)
    (hist : String → String → List R) (app a : Int) (n : Nat)
    (h : ItadEvent.markCompleted a n ∈ perAppItadEvents cache avail country hist app) :
    a = app ∧ avail app ≠ [] := by
  unfold perAppItadEvents at h
  split at h
  · simp at h
  · by_cases he : (avail app).isEmpty
    · simp only [he, if_true] at h
      simp at h
    · have he2 : (avail app).isEmpty = false := by simpa using he
      simp only [he2, Bool.false_eq_true, if_false] at h
      refine ⟨?_, by simpa using he⟩
      rcases List.mem_append.mp h with h1 | h2
      · rcases List.mem_append.mp h1 with h3 | h4
        · simp at h3
        · obtain ⟨c2, hc2, hev⟩ := stage2_mem_fetchHistory app _ (avail app) country hist _ h4
          simp at hev
      · split at h2 <;> simp at h2
        exact h2.1

/-- An app with an empty confirmed-currency set produces exactly one
event: an error mark. -/
theorem perApp_empty_avail {R : Type} (cache : List (Int × String))
    (avail : Int → List String) (country : String → Option String)
    (hist : String → String → List R) (app : Int) (h : avail app = []) :
    ∃ msg, perAppItadEvents cache avail country hist app = [ItadEvent.markError app msg] := by
  unfold perAppItadEvents
  cases hc : cacheLookup cache app with
  | none => exact ⟨"UUID not found in lookup", rfl⟩
  | some uuid =>
    refine ⟨"No currencies found in ITAD", ?_⟩
    simp [h]

/-- C1: in `parse_price_history_batch`, every batch item whose Stage-1
probe confirmed an empty currency set is marked as error immediately,
with no Stage-2 call and no completion mark for it; and every Stage-2
history call is issued only for an `(item, currency)` pair whose
currency was confirmed present by Stage 1. -/
theorem hybrid_stage2_only_for_confirmed {R : Type} (app_ids : List Int)
    (currencyList : List String) (country : String → Option String)
    (storelow : String → Option (List StorelowGame))
    (resp : List (String × Option String)) (hist : String → String → List R)
    (hne : resp ≠ []) :
    (∀ app ∈ app_ids,
      determineAvailableCurrencies app_ids currencyList country storelow app = [] →
      (∃ msg, ItadEvent.markError app msg ∈
        parsePriceHistoryBatch app_ids currencyList country storelow (some resp) hist) ∧
      (∀ c, ItadEvent.stage2Call app c ∉
        parsePriceHistoryBatch app_ids currencyList country storelow (some resp) hist) ∧
      (∀ n, ItadEvent.markCompleted app n ∉
        parsePriceHistoryBatch app_ids currencyList country storelow (some resp) hist)) ∧
    (∀ app c, ItadEvent.stage2Call app c ∈
        parsePriceHistoryBatch app_ids currencyList country storelow (some resp) hist →
      c ∈ determineAvailableCurrencies app_ids currencyList country storelow app) := by
  have hre : resp.isEmpty = false := by simpa [List.isEmpty_iff] using hne
  have hevs : parsePriceHistoryBatch app_ids currencyList country storelow (some resp) hist =
      app_ids.flatMap (perAppItadEvents (buildUuidCache resp)
        (determineAvailableCurrencies app_ids currencyList country storelow) country hist) := by
    simp [parsePriceHistoryBatch, hre]
  rw [hevs]
  constructor
  · intro app happ hav
    refine ⟨?_, ?_, ?_⟩
    · obtain ⟨msg, hmsg⟩ := perApp_empty_avail (buildUuidCache resp) _ country hist app hav
      exact ⟨msg, List.mem_flatMap.mpr ⟨app, happ, by rw [hmsg]; simp⟩⟩
    · intro c hc
      obtain ⟨a2, _, hev⟩ := List.mem_flatMap.mp hc
      obtain ⟨heq, hmem⟩ := stage2_mem_perApp _ _ country hist a2 app c hev
      subst heq
      rw [hav] at hmem
      simp at hmem
    · intro n hn
      obtain ⟨a2, _, hev⟩ := List.mem_flatMap.mp hn
      obtain ⟨heq, hne2⟩ := completed_mem_perApp _ _ country hist a2 app n hev
      subst heq
      exact hne2 hav
  · intro app c hc
    obtain ⟨a2, _, hev⟩ := List.mem_flatMap.mp hc
    obtain ⟨heq, hmem⟩ := stage2_mem_perApp _ _ country hist a2 app c hev
    subst heq
    exact hmem

/-- Witness for C1 at the specification's example: item 1 confirmed
`{USD}`, item 2 confirmed `{}` — item 2 is marked error with no Stage-2
call. -/
theorem hybrid_stage2_only_for_confirmed_witness :
    (∃ msg, ItadEvent.markError 2 msg ∈
      parsePriceHistoryBatch [1, 2] ["USD"]
        (fun c => if c = "USD" then some "US" else none)
        (fun c => if c = "USD" then some [StorelowGame.mk (some 1) [StorelowLow.mk "USD"]]
                  else none)
        (some [("app/1", some "u1"), ("app/2", some "u2")])
        (fun _ _ => ([0] : List Nat))) ∧
    ItadEvent.stage2Call 2 "USD" ∉
      parsePriceHistoryBatch [1, 2] ["USD"]
        (fun c => if c = "USD" then some "US" else none)
        (fun c => if c = "USD" then some [StorelowGame.mk (some 1) [StorelowLow.mk "USD"]]
                  else none)
        (some [("app/1", some "u1"), ("app/2", some "u2")])
        (fun _ _ => ([0] : List Nat)) := by
  have h := hybrid_stage2_only_for_confirmed (R := Nat) [1, 2] ["USD"]
    (fun c => if c = "USD" then some "US" else none)
    (fun c => if c = "USD" then some [StorelowGame.mk (some 1) [StorelowLow.mk "USD"]]
              else none)
    [("app/1", some "u1"), ("app/2", some "u2")]
    (fun _ _ => ([0] : List Nat)) (by decide)
  have hav : determineAvailableCurrencies [1, 2] ["USD"]
      (fun c => if c = "USD" then some "US" else none)
      (fun c => if c = "USD" then some [StorelowGame.mk (some 1) [StorelowLow.mk "USD"]]
                else none) 2 = [] := by
    simp [determineAvailableCurrencies, stage1Game, addAvail]
  have h2 := h.1 2 (by decide) hav
  exact ⟨h2.1, h2.2.1 "USD"⟩
